import Mathlib

/-!
Shallow embedding of `arlo-lapse.py` (class `ArloLapse`): configuration
loading, snapshot acquisition, retention purge and time-lapse assembly,
together with theorems checking the specification's claims against it.

Paths and file names are strings; the snapshot directory is a list of the
full paths it contains; `datetime` values are encoded as integer seconds of
the proleptic Gregorian calendar, so that `datetime` comparisons agree with
integer comparisons of the encodings.
-/

/-- The regex class `[0-9]` from the purge pattern `([a-zA-Z_]+)([0-9]+)`. -/
def isDigitN (c : Char) : Bool := 48 ≤ c.toNat && c.toNat ≤ 57

/-- The regex class `[a-zA-Z_]` from the purge pattern. -/
def isWordN (c : Char) : Bool :=
  (65 ≤ c.toNat && c.toNat ≤ 90) || (97 ≤ c.toNat && c.toNat ≤ 122) || c.toNat == 95

/-- `re.search(r'([a-zA-Z_]+)([0-9]+)', s).group(2)`: the maximal digit run
starting at the first digit immediately preceded by an `[a-zA-Z_]` character
(the boolean argument records whether the previous character was in that
class). `none` models a failed search. -/
def group2 : List Char → Bool → Option (List Char)
  | [], _ => none
  | c :: cs, prevWord =>
    if isDigitN c && prevWord then some (c :: cs.takeWhile isDigitN)
    else group2 cs (isWordN c)

def isLeap (y : Nat) : Bool := y % 4 == 0 && (y % 100 != 0 || y % 400 == 0)

def daysInMonth (y m : Nat) : Nat :=
  if m = 2 then (if isLeap y then 29 else 28)
  else if m = 4 ∨ m = 6 ∨ m = 9 ∨ m = 11 then 30
  else 31

def daysBeforeYear (y : Nat) : Nat :=
  (y - 1) * 365 + (y - 1) / 4 - (y - 1) / 100 + (y - 1) / 400

def daysBeforeMonth (y m : Nat) : Nat :=
  ((List.range (m - 1)).map (fun i => daysInMonth y (i + 1))).sum

/-- Seconds encoding of a `datetime`, via its proleptic Gregorian ordinal;
`datetime` comparison agrees with integer comparison of these encodings. -/
def toSecs (y m d hh mi ss : Nat) : Int :=
  ((daysBeforeYear y + daysBeforeMonth y m + (d - 1)) * 86400
    + hh * 3600 + mi * 60 + ss : Nat)

def digitVal (c : Char) : Nat := c.toNat - 48

def digitsVal (l : List Char) : Nat := l.foldl (fun n c => n * 10 + digitVal c) 0

/-- The alternatives of one field of CPython's `_strptime` pattern, in
alternation order: each entry is the field value and the remaining input. -/
def firstMatch {α : Type} : List (Nat × List Char) → (Nat → List Char → Option α) → Option α
  | [], _ => none
  | (v, rest) :: more, k =>
    match k v rest with
    | some r => some r
    | none => firstMatch more k

/-- `%m` in `_strptime`: `1[0-2]|0[1-9]|[1-9]`. -/
def altsM : List Char → List (Nat × List Char)
  | a :: b :: rest =>
    (if a.toNat = 49 ∧ 48 ≤ b.toNat ∧ b.toNat ≤ 50 then [(10 + digitVal b, rest)] else [])
      ++ (if a.toNat = 48 ∧ 49 ≤ b.toNat ∧ b.toNat ≤ 57 then [(digitVal b, rest)] else [])
      ++ (if 49 ≤ a.toNat ∧ a.toNat ≤ 57 then [(digitVal a, b :: rest)] else [])
  | [a] => if 49 ≤ a.toNat ∧ a.toNat ≤ 57 then [(digitVal a, [])] else []
  | [] => []

/-- `%d` in `_strptime`: `3[01]|[12]\d|0[1-9]|[1-9]`. -/
def altsD : List Char → List (Nat × List Char)
  | a :: b :: rest =>
    (if a.toNat = 51 ∧ 48 ≤ b.toNat ∧ b.toNat ≤ 49 then [(30 + digitVal b, rest)] else [])
      ++ (if 49 ≤ a.toNat ∧ a.toNat ≤ 50 ∧ isDigitN b = true then
            [(digitVal a * 10 + digitVal b, rest)] else [])
      ++ (if a.toNat = 48 ∧ 49 ≤ b.toNat ∧ b.toNat ≤ 57 then [(digitVal b, rest)] else [])
      ++ (if 49 ≤ a.toNat ∧ a.toNat ≤ 57 then [(digitVal a, b :: rest)] else [])
  | [a] => if 49 ≤ a.toNat ∧ a.toNat ≤ 57 then [(digitVal a, [])] else []
  | [] => []

/-- `%H` in `_strptime`: `2[0-3]|[0-1]\d|\d`. -/
def altsH : List Char → List (Nat × List Char)
  | a :: b :: rest =>
    (if a.toNat = 50 ∧ 48 ≤ b.toNat ∧ b.toNat ≤ 51 then [(20 + digitVal b, rest)] else [])
      ++ (if 48 ≤ a.toNat ∧ a.toNat ≤ 49 ∧ isDigitN b = true then
            [(digitVal a * 10 + digitVal b, rest)] else [])
      ++ (if isDigitN a = true then [(digitVal a, b :: rest)] else [])
  | [a] => if isDigitN a = true then [(digitVal a, [])] else []
  | [] => []

/-- `%M` in `_strptime`: `[0-5]\d|\d`. -/
def altsMin : List Char → List (Nat × List Char)
  | a :: b :: rest =>
    (if 48 ≤ a.toNat ∧ a.toNat ≤ 53 ∧ isDigitN b = true then
        [(digitVal a * 10 + digitVal b, rest)] else [])
      ++ (if isDigitN a = true then [(digitVal a, b :: rest)] else [])
  | [a] => if isDigitN a = true then [(digitVal a, [])] else []
  | [] => []

/-- `%S` in `_strptime`: `6[0-1]|[0-5]\d|\d` (leap seconds are matched, then
rejected by the `datetime` constructor). -/
def altsS : List Char → List (Nat × List Char)
  | a :: b :: rest =>
    (if a.toNat = 54 ∧ 48 ≤ b.toNat ∧ b.toNat ≤ 49 then [(60 + digitVal b, rest)] else [])
      ++ (if 48 ≤ a.toNat ∧ a.toNat ≤ 53 ∧ isDigitN b = true then
            [(digitVal a * 10 + digitVal b, rest)] else [])
      ++ (if isDigitN a = true then [(digitVal a, b :: rest)] else [])
  | [a] => if isDigitN a = true then [(digitVal a, [])] else []
  | [] => []

/-- Depth-first match of `%m%d%H%M%S` against a prefix of the input, in the
regex engine's leftmost-alternation backtracking order; returns the first
complete match — the five field values and the unconsumed remainder. -/
def matchMDHMS (ds : List Char) : Option (Nat × Nat × Nat × Nat × Nat × List Char) :=
  firstMatch (altsM ds) (fun m r1 =>
    firstMatch (altsD r1) (fun d r2 =>
      firstMatch (altsH r2) (fun hh r3 =>
        firstMatch (altsMin r3) (fun mi r4 =>
          firstMatch (altsS r4) (fun ss r5 =>
            some (m, d, hh, mi, ss, r5))))))

/-- `datetime.datetime.strptime(ds, '%Y%m%d%H%M%S')`, following CPython's
`_strptime`: `%Y` is exactly four digits, then `%m%d%H%M%S` (each accepting
one- or two-digit forms) is matched with leftmost-alternation backtracking;
the parse raises if there is no match or if unconverted data remains after
the first match, and the `datetime` constructor then rejects year 0, a day
beyond the month's length, and leap seconds. `none` models the
`ValueError`. -/
def strptimeYmdHMS (ds : List Char) : Option Int :=
  match ds with
  | c1 :: c2 :: c3 :: c4 :: rest =>
    if isDigitN c1 = true ∧ isDigitN c2 = true ∧ isDigitN c3 = true
        ∧ isDigitN c4 = true then
      let y := digitsVal [c1, c2, c3, c4]
      match matchMDHMS rest with
      | some (m, d, hh, mi, ss, rest2) =>
        if rest2 = [] ∧ 1 ≤ y ∧ d ≤ daysInMonth y m ∧ ss ≤ 59 then
          some (toSecs y m d hh mi ss)
        else none
      | none => none
    else none
  | _ => none

/-- Timestamp extraction applied to one globbed path in `purge_snapshots`:
`datetime.strptime(re.search(regex, file).group(2), '%Y%m%d%H%M%S')`.
`none` models the exception path (no regex match, or `strptime` failure). -/
def parseFileDate (f : String) : Option Int :=
  match group2 f.data false with
  | none => none
  | some ds => strptimeYmdHMS ds

def isPfxL : List Char → List Char → Bool
  | [], _ => true
  | _ :: _, [] => false
  | a :: as, b :: bs => a.toNat == b.toNat && isPfxL as bs

def isSfxL (a b : List Char) : Bool := isPfxL a.reverse b.reverse

/-- Membership test of a stored path `f` in `glob.glob(pre + '*.jpg')`:
the literal head `pre`, then any run of non-separator characters matched by
`*`, then the literal tail `.jpg`. -/
def globMatch (pre f : String) : Bool :=
  let mid := f.data.drop pre.data.length
  isPfxL pre.data f.data && isSfxL ".jpg".data f.data
    && decide (pre.data.length + 4 ≤ f.data.length)
    && (mid.take (mid.length - 4)).all (fun c => c.toNat != 47)

/-- The deletion test of `purge_snapshots`:
`date < now - datetime.timedelta(hours=h)` on a path whose name parses. -/
def isOldFile (now h : Int) (f : String) : Bool :=
  match parseFileDate f with
  | some d => decide (d < now - h * 3600)
  | none => false

/-- A path is a stored still of one of the configured cameras. -/
def matchedBy (cams : List String) (path f : String) : Bool :=
  cams.any (fun c => globMatch (path ++ c) f)

/-- The `for file in files:` body of `purge_snapshots` over one camera's glob
list: the paths passed to `os.remove` before any failure, and whether the
loop finished without raising. -/
def purgeDeletes (now h : Int) : List String → List String × Bool
  | [] => ([], true)
  | f :: ms =>
    match parseFileDate f with
    | none => ([], false)
    | some d =>
      if d < now - h * 3600 then
        let r := purgeDeletes now h ms
        (f :: r.1, r.2)
      else purgeDeletes now h ms

/-- `ArloLapse.purge_snapshots`: per configured camera, glob the stored
stills and delete those older than `now - timedelta(hours=h)`. The boolean
records whether the method returned normally (`false` = an unhandled
exception escaped, leaving the deletions already performed in place). -/
def purge_snapshots (path : String) (now h : Int) :
    List String → List String → List String × Bool
  | [], fs => (fs, true)
  | c :: cs, fs =>
    let ms := fs.filter (fun f => globMatch (path ++ c) f)
    let r := purgeDeletes now h ms
    let fsp := fs.filter (fun f => !(r.1.contains f))
    if r.2 then purge_snapshots path now h cs fsp else (fsp, false)

example : parseFileDate "./raw/Front_Door_20240101000000.jpg"
    = some (toSecs 2024 1 1 0 0 0) := by decide

example : parseFileDate "./raw/Front_Door_broken.jpg" = none := by decide

example : parseFileDate "./raw/Front_Door_111111111.jpg"
    = some (toSecs 1111 1 1 1 1 1) := by decide

example : parseFileDate "./raw/Front_Door_202411010000.jpg"
    = some (toSecs 2024 11 1 0 0 0) := by decide

example : parseFileDate "./raw/Front_Door_20240101.jpg" = none := by decide

example : parseFileDate "./raw/Front_Door_202401010000001.jpg" = none := by decide

example : parseFileDate "./raw/Front_Door_20240101000060.jpg" = none := by decide

example : globMatch "./raw/Front_Door" "./raw/Front_Door_20240101000000.jpg" = true := by
  decide

example :
    purge_snapshots "./raw/" (toSecs 2024 1 3 0 0 0) 24 ["Front_Door"]
      ["./raw/Front_Door_20240101000000.jpg", "./raw/Front_Door_20240102120000.jpg"]
    = (["./raw/Front_Door_20240102120000.jpg"], true) := by decide

theorem purgeDeletes_eq_filter (now h : Int) (ms : List String)
    (hp : ∀ f ∈ ms, (parseFileDate f).isSome) :
    purgeDeletes now h ms = (ms.filter (isOldFile now h), true) := by
  induction ms with
  | nil => rfl
  | cons f ms ih =>
    obtain ⟨d, hd⟩ := Option.isSome_iff_exists.mp (hp f (List.mem_cons_self f ms))
    have ihd := ih (fun g hg => hp g (List.mem_cons_of_mem f hg))
    by_cases hlt : d < now - h * 3600
    · simp [purgeDeletes, hd, hlt, ihd, List.filter_cons, isOldFile]
    · simp [purgeDeletes, hd, hlt, ihd, List.filter_cons, isOldFile]

theorem purgeDeletes_fst_subset (now h : Int) :
    ∀ ms : List String, ∀ f ∈ (purgeDeletes now h ms).1,
      f ∈ ms ∧ isOldFile now h f = true := by
  intro ms
  induction ms with
  | nil => intro f hf; simp [purgeDeletes] at hf
  | cons g ms ih =>
    intro f hf
    cases hg : parseFileDate g with
    | none => simp [purgeDeletes, hg] at hf
    | some d =>
      by_cases hlt : d < now - h * 3600
      · simp only [purgeDeletes, hg, if_pos hlt] at hf
        rcases List.mem_cons.mp hf with rfl | hm
        · exact ⟨List.mem_cons_self _ _, by simp [isOldFile, hg, hlt]⟩
        · rcases ih f hm with ⟨h1, h2⟩
          exact ⟨List.mem_cons_of_mem g h1, h2⟩
      · simp only [purgeDeletes, hg, if_neg hlt] at hf
        rcases ih f hf with ⟨h1, h2⟩
        exact ⟨List.mem_cons_of_mem g h1, h2⟩

theorem purgeDeletes_snd_parse (now h : Int) :
    ∀ ms : List String, (purgeDeletes now h ms).2 = true →
      ∀ f ∈ ms, (parseFileDate f).isSome := by
  intro ms
  induction ms with
  | nil => intro _ f hf; simp at hf
  | cons g ms ih =>
    intro hok f hf
    cases hg : parseFileDate g with
    | none => simp [purgeDeletes, hg] at hok
    | some d =>
      rcases List.mem_cons.mp hf with rfl | hm
      · simp [hg]
      · by_cases hlt : d < now - h * 3600
        · exact ih (by simpa [purgeDeletes, hg, hlt] using hok) f hm
        · exact ih (by simpa [purgeDeletes, hg, hlt] using hok) f hm

theorem purge_snapshots_eq_filter (path : String) (now h : Int) :
    ∀ cams fs : List String,
      (∀ f ∈ fs, matchedBy cams path f = true → (parseFileDate f).isSome) →
      purge_snapshots path now h cams fs
        = (fs.filter (fun f => !(matchedBy cams path f && isOldFile now h f)), true) := by
  intro cams
  induction cams with
  | nil =>
    intro fs _
    simp [purge_snapshots, matchedBy]
  | cons c cs ih =>
    intro fs hp
    have hms : ∀ f ∈ fs.filter (fun g => globMatch (path ++ c) g),
        (parseFileDate f).isSome := by
      intro f hf
      rcases List.mem_filter.mp hf with ⟨hfs, hg⟩
      exact hp f hfs (by simp [matchedBy, List.any_cons, hg])
    have hdel := purgeDeletes_eq_filter now h _ hms
    have hfsp :
        fs.filter (fun f =>
            !(((fs.filter (fun g => globMatch (path ++ c) g)).filter
                (isOldFile now h)).contains f))
          = fs.filter (fun f => !(globMatch (path ++ c) f && isOldFile now h f)) := by
      apply List.filter_congr
      intro f hf
      by_cases hg : globMatch (path ++ c) f = true
      · by_cases ho : isOldFile now h f = true
        · simp [List.mem_filter, hf, hg, ho]
        · simp [List.mem_filter, hg, ho]
      · simp [List.mem_filter, hg]
    have hpcs : ∀ f ∈ fs.filter (fun f => !(globMatch (path ++ c) f && isOldFile now h f)),
        matchedBy cs path f = true → (parseFileDate f).isSome := by
      intro f hf hm
      have hm' : (cs.any fun cn => globMatch (path ++ cn) f) = true := hm
      exact hp f (List.mem_filter.mp hf).1
        (by simp only [matchedBy, List.any_cons, hm', Bool.or_true])
    simp only [purge_snapshots, hdel, if_true]
    rw [hfsp, ih _ hpcs, List.filter_filter]
    refine congrArg (fun l => (l, true)) (List.filter_congr ?_)
    intro f _
    simp only [matchedBy, List.any_cons]
    cases globMatch (path ++ c) f <;>
      cases cs.any (fun cn => globMatch (path ++ cn) f) <;>
        cases isOldFile now h f <;> rfl

/-- C1: a stored still of a configured camera is removed by `purge_snapshots`
exactly when its filename-embedded timestamp is strictly older than
`now - purge_duration_hours`; a still at or after that threshold is retained,
in particular one exactly at the threshold. -/
theorem purge_retention_boundary
    (path : String) (now h : Int) (cams fs : List String)
    (hp : ∀ g ∈ fs, matchedBy cams path g = true → (parseFileDate g).isSome)
    (f : String) (hf : f ∈ fs) (hm : matchedBy cams path f = true)
    (d : Int) (hd : parseFileDate f = some d) :
    (f ∈ (purge_snapshots path now h cams fs).1 ↔ ¬ d < now - h * 3600)
      ∧ (d = now - h * 3600 → f ∈ (purge_snapshots path now h cams fs).1) := by
  have hchar := purge_snapshots_eq_filter path now h cams fs hp
  rw [hchar]
  have hmem :
      f ∈ fs.filter (fun g => !(matchedBy cams path g && isOldFile now h g))
        ↔ ¬ d < now - h * 3600 := by
    simp [List.mem_filter, hf, hm, isOldFile, hd]
  exact ⟨hmem, fun heq => hmem.mpr (by rw [heq]; exact lt_irrefl _)⟩

/-- Witness for C1: with `now = 2024-01-03 00:00:00` and a 24-hour window,
the still stamped `2024-01-02 12:00:00` is retained. -/
theorem purge_retention_boundary_witness :
    ("./raw/Front_Door_20240102120000.jpg" ∈
        (purge_snapshots "./raw/" (toSecs 2024 1 3 0 0 0) 24 ["Front_Door"]
          ["./raw/Front_Door_20240101000000.jpg",
           "./raw/Front_Door_20240102120000.jpg"]).1
      ↔ ¬ toSecs 2024 1 2 12 0 0 < toSecs 2024 1 3 0 0 0 - 24 * 3600)
    ∧ (toSecs 2024 1 2 12 0 0 = toSecs 2024 1 3 0 0 0 - 24 * 3600 →
        "./raw/Front_Door_20240102120000.jpg" ∈
          (purge_snapshots "./raw/" (toSecs 2024 1 3 0 0 0) 24 ["Front_Door"]
            ["./raw/Front_Door_20240101000000.jpg",
             "./raw/Front_Door_20240102120000.jpg"]).1) :=
  purge_retention_boundary "./raw/" (toSecs 2024 1 3 0 0 0) 24 ["Front_Door"]
    ["./raw/Front_Door_20240101000000.jpg", "./raw/Front_Door_20240102120000.jpg"]
    (by decide) "./raw/Front_Door_20240102120000.jpg" (by decide) (by decide)
    (toSecs 2024 1 2 12 0 0) (by decide)

/-- C6: with all stored stills of configured cameras parseable, purging a
second time with the same `now` leaves the file set produced by the first
purge unchanged. -/
theorem purge_snapshots_idempotent
    (path : String) (now h : Int) (cams fs : List String)
    (hp : ∀ f ∈ fs, matchedBy cams path f = true → (parseFileDate f).isSome) :
    purge_snapshots path now h cams (purge_snapshots path now h cams fs).1
      = purge_snapshots path now h cams fs := by
  have h1 := purge_snapshots_eq_filter path now h cams fs hp
  have hp2 : ∀ f ∈ (purge_snapshots path now h cams fs).1,
      matchedBy cams path f = true → (parseFileDate f).isSome := by
    intro f hf hm
    rw [h1] at hf
    exact hp f (List.mem_filter.mp hf).1 hm
  have h2 := purge_snapshots_eq_filter path now h cams _ hp2
  rw [h2, h1]
  simp only [List.filter_filter]
  refine congrArg (fun l => (l, true)) (List.filter_congr ?_)
  intro f _
  cases (matchedBy cams path f && isOldFile now h f) <;> rfl

/-- Witness for C6 at concrete inputs. -/
theorem purge_snapshots_idempotent_witness :
    purge_snapshots "./raw/" (toSecs 2024 1 3 0 0 0) 24 ["Front_Door"]
        (purge_snapshots "./raw/" (toSecs 2024 1 3 0 0 0) 24 ["Front_Door"]
          ["./raw/Front_Door_20240101000000.jpg",
           "./raw/Front_Door_20240102120000.jpg"]).1
      = purge_snapshots "./raw/" (toSecs 2024 1 3 0 0 0) 24 ["Front_Door"]
          ["./raw/Front_Door_20240101000000.jpg",
           "./raw/Front_Door_20240102120000.jpg"] :=
  purge_snapshots_idempotent "./raw/" (toSecs 2024 1 3 0 0 0) 24 ["Front_Door"]
    ["./raw/Front_Door_20240101000000.jpg", "./raw/Front_Door_20240102120000.jpg"]
    (by decide)

theorem purge_abort_of_bad (path : String) (now h : Int) :
    ∀ cams fs : List String,
      (∃ f ∈ fs, matchedBy cams path f = true ∧ parseFileDate f = none) →
      (purge_snapshots path now h cams fs).2 = false := by
  intro cams
  induction cams with
  | nil =>
    rintro fs ⟨f, _, hm, _⟩
    simp [matchedBy] at hm
  | cons c cs ih =>
    rintro fs ⟨f, hf, hm, hnone⟩
    by_cases hok : (purgeDeletes now h (fs.filter (fun g => globMatch (path ++ c) g))).2 = true
    · have hgc : globMatch (path ++ c) f = false := by
        cases hx : globMatch (path ++ c) f
        · rfl
        · have := purgeDeletes_snd_parse now h _ hok f (List.mem_filter.mpr ⟨hf, hx⟩)
          rw [hnone] at this
          simp at this
      have hmcs : matchedBy cs path f = true := by
        have hm' : (globMatch (path ++ c) f
            || cs.any fun cn => globMatch (path ++ cn) f) = true := hm
        rw [hgc, Bool.false_or] at hm'
        exact hm'
      have hnotdel :
          f ∉ (purgeDeletes now h (fs.filter (fun g => globMatch (path ++ c) g))).1 := by
        intro hdel
        have := (purgeDeletes_fst_subset now h _ f hdel).2
        simp [isOldFile, hnone] at this
      have hfsp : f ∈ fs.filter (fun g =>
          !((purgeDeletes now h (fs.filter (fun g2 => globMatch (path ++ c) g2))).1.contains g)) :=
        List.mem_filter.mpr ⟨hf, by simp [hnotdel]⟩
      have hrec := ih _ ⟨f, hfsp, hmcs, hnone⟩
      simp only [purge_snapshots, hok, if_true]
      exact hrec
    · have hok' : (purgeDeletes now h (fs.filter (fun g => globMatch (path ++ c) g))).2 = false := by
        cases hx : (purgeDeletes now h (fs.filter (fun g => globMatch (path ++ c) g))).2
        · rfl
        · exact absurd hx hok
      simp only [purge_snapshots, hok', Bool.false_eq_true, if_false]

/-- C8: an unparseable filename among a configured camera's stills makes
`purge_snapshots` raise (the run does not return normally); and in the
two-file scenario where an old still is processed before the malformed one,
the old still stays deleted while the purge aborts. -/
theorem purge_parse_failure_propagates
    (path : String) (now h : Int) (cams fs : List String) :
    ((∃ f ∈ fs, matchedBy cams path f = true ∧ parseFileDate f = none) →
        (purge_snapshots path now h cams fs).2 = false)
    ∧ (∀ c fOld fBad d,
        globMatch (path ++ c) fOld = true → globMatch (path ++ c) fBad = true →
        parseFileDate fOld = some d → d < now - h * 3600 → parseFileDate fBad = none →
        purge_snapshots path now h [c] [fOld, fBad] = ([fBad], false)) := by
  constructor
  · exact purge_abort_of_bad path now h cams fs
  · intro c fOld fBad d hgo hgb ho hlt hb
    have hne : fBad ≠ fOld := by
      intro he
      rw [he, ho] at hb
      exact Option.noConfusion hb
    simp [purge_snapshots, purgeDeletes, hgo, hgb, ho, hb, hlt, hne, List.filter_cons]

/-- Witness for C8: the old still `20240101000000` is deleted, then the purge
aborts on `Front_Door_bad.jpg`, which survives. -/
theorem purge_parse_failure_propagates_witness :
    ((purge_snapshots "./raw/" (toSecs 2024 1 3 0 0 0) 24 ["Front_Door"]
        ["./raw/Front_Door_20240101000000.jpg", "./raw/Front_Door_bad.jpg"]).2 = false)
    ∧ purge_snapshots "./raw/" (toSecs 2024 1 3 0 0 0) 24 ["Front_Door"]
        ["./raw/Front_Door_20240101000000.jpg", "./raw/Front_Door_bad.jpg"]
      = (["./raw/Front_Door_bad.jpg"], false) :=
  ⟨(purge_parse_failure_propagates "./raw/" (toSecs 2024 1 3 0 0 0) 24 ["Front_Door"]
      ["./raw/Front_Door_20240101000000.jpg", "./raw/Front_Door_bad.jpg"]).1 (by decide),
   (purge_parse_failure_propagates "./raw/" (toSecs 2024 1 3 0 0 0) 24 ["Front_Door"]
      ["./raw/Front_Door_20240101000000.jpg", "./raw/Front_Door_bad.jpg"]).2
     "Front_Door" "./raw/Front_Door_20240101000000.jpg" "./raw/Front_Door_bad.jpg"
     (toSecs 2024 1 1 0 0 0) (by decide) (by decide) (by decide) (by decide) (by decide)⟩

/-- Python string comparison `a <= b`: lexicographic on code points, as used
by `sorted` on the globbed paths. -/
def pyStrLeL : List Char → List Char → Bool
  | [], _ => true
  | _ :: _, [] => false
  | a :: as, b :: bs =>
    if a.toNat = b.toNat then pyStrLeL as bs else decide (a.toNat < b.toNat)

def fileLe (a b : String) : Prop := pyStrLeL a.data b.data = true

instance : DecidableRel fileLe := fun a b =>
  inferInstanceAs (Decidable (pyStrLeL a.data b.data = true))

theorem pyStrLeL_total : ∀ a b : List Char, pyStrLeL a b = true ∨ pyStrLeL b a = true := by
  intro a
  induction a with
  | nil => intro b; left; rfl
  | cons x xs ih =>
    intro b
    cases b with
    | nil => right; rfl
    | cons y ys =>
      by_cases hxy : x.toNat = y.toNat
      · rcases ih ys with h | h
        · left; simp [pyStrLeL, hxy, h]
        · right; simp [pyStrLeL, hxy.symm, h]
      · rcases Nat.lt_or_ge x.toNat y.toNat with hlt | hge
        · left; simp [pyStrLeL, hxy, hlt]
        · right
          have hyx : y.toNat ≠ x.toNat := fun he => hxy he.symm
          have hlt : y.toNat < x.toNat := lt_of_le_of_ne hge hyx
          simp [pyStrLeL, hyx, hlt]

theorem pyStrLeL_trans :
    ∀ a b c : List Char, pyStrLeL a b = true → pyStrLeL b c = true →
      pyStrLeL a c = true := by
  intro a
  induction a with
  | nil => intro b c _ _; rfl
  | cons x xs ih =>
    intro b c hab hbc
    cases b with
    | nil => simp [pyStrLeL] at hab
    | cons y ys =>
      cases c with
      | nil => simp [pyStrLeL] at hbc
      | cons z zs =>
        by_cases hxy : x.toNat = y.toNat <;> by_cases hyz : y.toNat = z.toNat
        · simp only [pyStrLeL, if_pos hxy] at hab
          simp only [pyStrLeL, if_pos hyz] at hbc
          simp only [pyStrLeL, if_pos (hxy.trans hyz)]
          exact ih ys zs hab hbc
        · simp only [pyStrLeL, if_neg hyz] at hbc
          have hyzlt : y.toNat < z.toNat := of_decide_eq_true hbc
          have hxz : x.toNat < z.toNat := by omega
          have hxzne : x.toNat ≠ z.toNat := Nat.ne_of_lt hxz
          simp [pyStrLeL, hxzne, hxz]
        · simp only [pyStrLeL, if_neg hxy] at hab
          have hxylt : x.toNat < y.toNat := of_decide_eq_true hab
          have hxz : x.toNat < z.toNat := by omega
          have hxzne : x.toNat ≠ z.toNat := Nat.ne_of_lt hxz
          simp [pyStrLeL, hxzne, hxz]
        · simp only [pyStrLeL, if_neg hxy] at hab
          simp only [pyStrLeL, if_neg hyz] at hbc
          have hxylt : x.toNat < y.toNat := of_decide_eq_true hab
          have hyzlt : y.toNat < z.toNat := of_decide_eq_true hbc
          have hxz : x.toNat < z.toNat := by omega
          have hxzne : x.toNat ≠ z.toNat := Nat.ne_of_lt hxz
          simp [pyStrLeL, hxzne, hxz]

instance : IsTotal String fileLe :=
  ⟨fun a b => pyStrLeL_total a.data b.data⟩

instance : IsTrans String fileLe :=
  ⟨fun a b c hab hbc => pyStrLeL_trans a.data b.data c.data hab hbc⟩

/-- `sorted(glob.glob(self.snapshot_path + camera_name + '*.jpg'))`: the
camera's stored stills in Python's lexicographic string order. -/
def sortedFilesFor (spath : String) (fs : List String) (c : String) : List String :=
  List.insertionSort fileLe (fs.filter (fun f => globMatch (spath ++ c) f))

/-- One `imageio.mimwrite(output_file, images, fps=fps)` invocation: the
frames in order and the frame rate passed to the encoder. -/
structure EncodeCall where
  camera : String
  frames : List String
  fps : ℚ
deriving DecidableEq, Repr

/-- Writing a file: overwrite if the path exists, otherwise create it. -/
def insertFile (fs : List String) (f : String) : List String :=
  if fs.contains f then fs else fs ++ [f]

/-- `ArloLapse.make_lapse`: per camera, sort the globbed stills; if any
exist, compute `fps = num_files/self.lapse_duration`, encode the frames to
`<snapshot_path>/<camera>.gif` and compress to `<lapse_path>/<camera>.gif`.
Returns the directory contents, the encoder invocations in order, and
whether the method returned normally (`false` = `ZeroDivisionError`). -/
def make_lapse (spath lpath : String) (D : Int) :
    List String → List String → List String × List EncodeCall × Bool
  | fs, [] => (fs, [], true)
  | fs, c :: cs =>
    let files := sortedFilesFor spath fs c
    if files.length > 0 then
      if D = 0 then (fs, [], false)
      else
        let fps : ℚ := (files.length : ℚ) / (D : ℚ)
        let fs2 := insertFile (insertFile fs (spath ++ c ++ ".gif")) (lpath ++ c ++ ".gif")
        let r := make_lapse spath lpath D fs2 cs
        (r.1, ⟨c, files, fps⟩ :: r.2.1, r.2.2)
    else make_lapse spath lpath D fs cs

theorem isSfxL_gif_jpg (l : List Char) : isSfxL ".jpg".data (l ++ ".gif".data) = false := by
  unfold isSfxL
  rw [List.reverse_append]
  rfl

theorem globMatch_gif (pre y : String) : globMatch pre (y ++ ".gif") = false := by
  have hd : (y ++ ".gif").data = y.data ++ ".gif".data := String.data_append y ".gif"
  have hsfx : isSfxL ".jpg".data ((y ++ ".gif").data) = false := by
    rw [hd]
    exact isSfxL_gif_jpg y.data
  unfold globMatch
  rw [hsfx]
  simp

theorem filter_insertFile_not (p : String → Bool) (fs : List String) (f : String)
    (hf : p f = false) :
    (insertFile fs f).filter p = fs.filter p := by
  unfold insertFile
  cases hc : fs.contains f
  · simp [List.filter_append, hf]
  · simp

theorem make_lapse_filter_glob (spath lpath : String) (D : Int) :
    ∀ (cams fs : List String) (pre : String),
      ((make_lapse spath lpath D fs cams).1).filter (fun f => globMatch pre f)
        = fs.filter (fun f => globMatch pre f) := by
  intro cams
  induction cams with
  | nil => intro fs pre; rfl
  | cons c cs ih =>
    intro fs pre
    by_cases hn : (sortedFilesFor spath fs c).length > 0
    · by_cases hD : D = 0
      · simp [make_lapse, hn, hD]
      · simp only [make_lapse, if_pos hn, if_neg hD]
        rw [ih]
        rw [filter_insertFile_not _ _ _ (globMatch_gif pre (lpath ++ c)),
          filter_insertFile_not _ _ _ (globMatch_gif pre (spath ++ c))]
    · simp only [make_lapse, if_neg hn]
      exact ih fs pre

/-- The encoder invocation `make_lapse` performs for one camera, if any. -/
def lapseCallFor (spath : String) (D : Int) (fs : List String) (c : String) :
    Option EncodeCall :=
  let files := sortedFilesFor spath fs c
  if files.length > 0 then
    some ⟨c, files, (files.length : ℚ) / (D : ℚ)⟩
  else none

theorem sortedFilesFor_insertFile_gif (spath : String) (fs : List String) (y c : String) :
    sortedFilesFor spath (insertFile fs (y ++ ".gif")) c = sortedFilesFor spath fs c := by
  unfold sortedFilesFor
  rw [filter_insertFile_not _ _ _ (globMatch_gif (spath ++ c) y)]

theorem make_lapse_calls (spath lpath : String) (D : Int) (hD : D ≠ 0) :
    ∀ (cams fs : List String),
      (make_lapse spath lpath D fs cams).2.1
        = cams.filterMap (lapseCallFor spath D fs) := by
  intro cams
  induction cams with
  | nil => intro fs; rfl
  | cons c cs ih =>
    intro fs
    rw [List.filterMap_cons]
    by_cases hn : (sortedFilesFor spath fs c).length > 0
    · have hcall : lapseCallFor spath D fs c
          = some ⟨c, sortedFilesFor spath fs c,
              ((sortedFilesFor spath fs c).length : ℚ) / (D : ℚ)⟩ := by
        simp [lapseCallFor, hn]
      rw [hcall]
      simp only [make_lapse, if_pos hn, if_neg hD]
      rw [ih]
      congr 1
      apply List.filterMap_congr
      intro c2 _
      unfold lapseCallFor
      rw [sortedFilesFor_insertFile_gif, sortedFilesFor_insertFile_gif]
    · have hcall : lapseCallFor spath D fs c = none := by
        simp [lapseCallFor, hn]
      rw [hcall]
      simp only [make_lapse, if_neg hn]
      exact ih fs

/-- C7: a camera with zero retained stills is silently skipped by
`make_lapse`: deleting it from the camera list changes nothing, so no file
is created, modified or deleted for it, no encoder call is made for it, and
the processing of every other camera is unaffected. -/
theorem make_lapse_skips_empty_camera
    (spath lpath : String) (D : Int) (c : String) :
    ∀ (pre post fs : List String),
      fs.filter (fun f => globMatch (spath ++ c) f) = [] →
      make_lapse spath lpath D fs (pre ++ c :: post)
        = make_lapse spath lpath D fs (pre ++ post) := by
  intro pre
  induction pre with
  | nil =>
    intro post fs hempty
    have hsf : sortedFilesFor spath fs c = [] := by
      unfold sortedFilesFor
      rw [hempty]
      rfl
    simp [make_lapse, hsf]
  | cons a pre ih =>
    intro post fs hempty
    by_cases hn : (sortedFilesFor spath fs a).length > 0
    · by_cases hD : D = 0
      · simp [make_lapse, hn, hD]
      · simp only [List.cons_append, make_lapse, if_pos hn, if_neg hD]
        have hempty2 :
            (insertFile (insertFile fs (spath ++ a ++ ".gif"))
                (lpath ++ a ++ ".gif")).filter (fun f => globMatch (spath ++ c) f)
              = [] := by
          rw [filter_insertFile_not _ _ _ (globMatch_gif (spath ++ c) (lpath ++ a)),
            filter_insertFile_not _ _ _ (globMatch_gif (spath ++ c) (spath ++ a)), hempty]
        have hrec := ih post
          (insertFile (insertFile fs (spath ++ a ++ ".gif")) (lpath ++ a ++ ".gif")) hempty2
        simp only [List.append_eq] at hrec ⊢
        rw [hrec]
    · simp only [List.cons_append, make_lapse, if_neg hn]
      exact ih post fs hempty

/-- Witness for C7: camera `Back_Yard` has no stills, so dropping it from
the camera list leaves `make_lapse` unchanged. -/
theorem make_lapse_skips_empty_camera_witness :
    make_lapse "./raw/" "./lapse/" 20
        ["./raw/Front_Door_20240101000000.jpg"] (["Front_Door"] ++ "Back_Yard" :: [])
      = make_lapse "./raw/" "./lapse/" 20
          ["./raw/Front_Door_20240101000000.jpg"] (["Front_Door"] ++ []) :=
  make_lapse_skips_empty_camera "./raw/" "./lapse/" 20 "Back_Yard" ["Front_Door"] []
    ["./raw/Front_Door_20240101000000.jpg"] (by decide)

/-- C10: with `lapse_duration = 0` and some camera having at least one
retained still, `make_lapse` raises `ZeroDivisionError` before producing any
output — the directory is untouched and no encoder call occurs; with a
nonzero duration the method always returns normally. -/
theorem make_lapse_zero_duration (spath lpath : String) :
    ∀ (cams fs : List String),
      ((∃ c ∈ cams, sortedFilesFor spath fs c ≠ []) →
          make_lapse spath lpath 0 fs cams = (fs, [], false))
      ∧ (∀ D : Int, D ≠ 0 → (make_lapse spath lpath D fs cams).2.2 = true) := by
  intro cams
  induction cams with
  | nil =>
    intro fs
    constructor
    · rintro ⟨c, hc, _⟩
      simp at hc
    · intro D _
      rfl
  | cons c cs ih =>
    intro fs
    constructor
    · rintro ⟨c2, hc2, hne⟩
      by_cases hn : (sortedFilesFor spath fs c).length > 0
      · simp [make_lapse, hn]
      · have hstep : make_lapse spath lpath 0 fs (c :: cs)
            = make_lapse spath lpath 0 fs cs := by
          simp [make_lapse, hn]
        rw [hstep]
        apply (ih fs).1
        rcases List.mem_cons.mp hc2 with rfl | hm
        · exact absurd (List.length_eq_zero.mp (Nat.eq_zero_of_not_pos hn)) hne
        · exact ⟨c2, hm, hne⟩
    · intro D hD
      by_cases hn : (sortedFilesFor spath fs c).length > 0
      · simp only [make_lapse, if_pos hn, if_neg hD]
        exact (ih _).2 D hD
      · simp only [make_lapse, if_neg hn]
        exact (ih fs).2 D hD

/-- Witness for C10: one retained still and `lapse_duration = 0` abort the
assembly with no output; `lapse_duration = 20` returns normally. -/
theorem make_lapse_zero_duration_witness :
    make_lapse "./raw/" "./lapse/" 0 ["./raw/Front_Door_20240101000000.jpg"] ["Front_Door"]
      = (["./raw/Front_Door_20240101000000.jpg"], [], false)
    ∧ (make_lapse "./raw/" "./lapse/" 20
        ["./raw/Front_Door_20240101000000.jpg"] ["Front_Door"]).2.2 = true :=
  ⟨(make_lapse_zero_duration "./raw/" "./lapse/" ["Front_Door"]
      ["./raw/Front_Door_20240101000000.jpg"]).1
      ⟨"Front_Door", by decide, by decide⟩,
   (make_lapse_zero_duration "./raw/" "./lapse/" ["Front_Door"]
      ["./raw/Front_Door_20240101000000.jpg"]).2 20 (by decide)⟩

theorem pyStrLeL_append_same : ∀ p x y : List Char,
    pyStrLeL (p ++ x) (p ++ y) = pyStrLeL x y := by
  intro p
  induction p with
  | nil => intro x y; rfl
  | cons a p ih => intro x y; simp [pyStrLeL, ih]

theorem digitsVal_go (l : List Char) : ∀ n : Nat,
    l.foldl (fun n c => n * 10 + digitVal c) n = n * 10 ^ l.length + digitsVal l := by
  induction l with
  | nil => intro n; simp [digitsVal]
  | cons a l ih =>
    intro n
    have h1 : (a :: l).foldl (fun n c => n * 10 + digitVal c) n
        = l.foldl (fun n c => n * 10 + digitVal c) (n * 10 + digitVal a) := rfl
    have h2 : digitsVal (a :: l)
        = l.foldl (fun n c => n * 10 + digitVal c) (0 * 10 + digitVal a) := rfl
    rw [h1, ih, h2, ih]
    simp only [List.length_cons, pow_succ]
    ring

theorem digitsVal_cons (a : Char) (l : List Char) :
    digitsVal (a :: l) = digitVal a * 10 ^ l.length + digitsVal l := by
  have h2 : digitsVal (a :: l)
      = l.foldl (fun n c => n * 10 + digitVal c) (0 * 10 + digitVal a) := rfl
  rw [h2, digitsVal_go]
  simp

theorem isDigitN_spec (a : Char) (h : isDigitN a = true) :
    48 ≤ a.toNat ∧ a.toNat ≤ 57 := by
  unfold isDigitN at h
  rw [Bool.and_eq_true, decide_eq_true_eq, decide_eq_true_eq] at h
  exact h

theorem digitsVal_lt (l : List Char) (hd : l.all isDigitN = true) :
    digitsVal l < 10 ^ l.length := by
  induction l with
  | nil => simp [digitsVal]
  | cons a l ih =>
    rw [List.all_cons, Bool.and_eq_true] at hd
    have ha : digitVal a ≤ 9 := by
      have := isDigitN_spec a hd.1
      unfold digitVal
      omega
    have hl := ih hd.2
    rw [digitsVal_cons]
    have hsplit : (digitVal a + 1) * 10 ^ l.length
        = digitVal a * 10 ^ l.length + 10 ^ l.length := by ring
    have h3 : digitVal a * 10 ^ l.length + digitsVal l
        < (digitVal a + 1) * 10 ^ l.length := by omega
    have h4 : (digitVal a + 1) * 10 ^ l.length ≤ 10 * 10 ^ l.length :=
      Nat.mul_le_mul_right _ (by omega)
    have h5 : (10 : Nat) * 10 ^ l.length = 10 ^ (a :: l).length := by
      rw [List.length_cons, pow_succ]
      ring
    omega

theorem digitsVal_le_of_pyLe :
    ∀ x y u v : List Char, x.length = y.length →
      x.all isDigitN = true → y.all isDigitN = true →
      pyStrLeL (x ++ u) (y ++ v) = true → digitsVal x ≤ digitsVal y := by
  intro x
  induction x with
  | nil =>
    intro y u v hlen _ _ _
    have hy : y = [] := List.length_eq_zero.mp hlen.symm
    subst hy
    exact le_refl _
  | cons a x ih =>
    intro y u v hlen hxd hyd hle
    cases y with
    | nil => simp at hlen
    | cons b y =>
      rw [List.all_cons, Bool.and_eq_true] at hxd hyd
      have hlen' : x.length = y.length := by simpa using hlen
      by_cases hab : a.toNat = b.toNat
      · have hle' : pyStrLeL (x ++ u) (y ++ v) = true := by
          simpa [pyStrLeL, hab] using hle
        have hda : digitVal a = digitVal b := by
          unfold digitVal
          omega
        have hrec := ih y u v hlen' hxd.2 hyd.2 hle'
        rw [digitsVal_cons, digitsVal_cons, hlen', hda]
        omega
      · have hab' : a.toNat < b.toNat := by
          have h0 := hle
          simp only [List.cons_append, pyStrLeL, if_neg hab] at h0
          exact of_decide_eq_true h0
        have hda : digitVal a < digitVal b := by
          have h1 := isDigitN_spec a hxd.1
          have h2 := isDigitN_spec b hyd.1
          unfold digitVal
          omega
        have hxlt : digitsVal x < 10 ^ y.length := by
          rw [← hlen']
          exact digitsVal_lt x hxd.2
        rw [digitsVal_cons, digitsVal_cons, hlen']
        have hsplit : (digitVal a + 1) * 10 ^ y.length
            = digitVal a * 10 ^ y.length + 10 ^ y.length := by ring
        have h3 : digitVal a * 10 ^ y.length + digitsVal x
            < (digitVal a + 1) * 10 ^ y.length := by omega
        have h4 : (digitVal a + 1) * 10 ^ y.length ≤ digitVal b * 10 ^ y.length :=
          Nat.mul_le_mul_right _ (by omega)
        omega

/-- The naming invariant `<snapshot_path><camera>_<YYYYMMDDHHMMSS>.jpg`:
`f` is `pre`, an underscore, a 14-digit stamp, then `.jpg`. -/
def canonicalStill (pre f : String) : Bool :=
  let mid := (f.data.drop (pre.data.length + 1)).take 14
  (mid.length == 14) && mid.all isDigitN
    && (f.data == pre.data ++ '_' :: (mid ++ ".jpg".data))

/-- The numeric value of the 14-digit timestamp embedded in a canonical
still name (chronological order coincides with numeric order). -/
def stampOf (pre f : String) : Nat :=
  digitsVal ((f.data.drop (pre.data.length + 1)).take 14)

theorem canonicalStill_spec (pre f : String) (h : canonicalStill pre f = true) :
    ∃ mid : List Char, f.data = pre.data ++ '_' :: (mid ++ ".jpg".data)
      ∧ mid.length = 14 ∧ mid.all isDigitN = true ∧ stampOf pre f = digitsVal mid := by
  unfold canonicalStill at h
  rw [Bool.and_eq_true, Bool.and_eq_true] at h
  obtain ⟨⟨h1, h2⟩, h3⟩ := h
  exact ⟨(f.data.drop (pre.data.length + 1)).take 14, eq_of_beq h3,
    eq_of_beq h1, h2, rfl⟩

theorem stampOf_mono (pre a b : String)
    (ha : canonicalStill pre a = true) (hb : canonicalStill pre b = true)
    (hle : fileLe a b) : stampOf pre a ≤ stampOf pre b := by
  obtain ⟨sa, hda, hla, hsa, hva⟩ := canonicalStill_spec pre a ha
  obtain ⟨sb, hdb, hlb, hsb, hvb⟩ := canonicalStill_spec pre b hb
  rw [hva, hvb]
  unfold fileLe at hle
  rw [hda, hdb, pyStrLeL_append_same] at hle
  have hle2 : pyStrLeL (sa ++ ".jpg".data) (sb ++ ".jpg".data) = true := by
    simpa [pyStrLeL] using hle
  exact digitsVal_le_of_pyLe sa sb _ _ (hla.trans hlb.symm) hsa hsb hle2

/-- C2: for a camera with `N > 0` retained stills and lapse duration
`D ≠ 0`, `make_lapse` invokes the encoder with frame rate exactly `N / D`
on the stills sorted by filename; under the naming scheme that order is
nondecreasing in the embedded timestamps. -/
theorem make_lapse_framerate_sorted
    (spath lpath : String) (D : Int) (fs cams : List String) (c : String)
    (hD : D ≠ 0) (hc : c ∈ cams)
    (hne : sortedFilesFor spath fs c ≠ [])
    (hcanon : ∀ f ∈ fs, globMatch (spath ++ c) f = true →
        canonicalStill (spath ++ c) f = true) :
    (EncodeCall.mk c (sortedFilesFor spath fs c)
        (((sortedFilesFor spath fs c).length : ℚ) / (D : ℚ))
      ∈ (make_lapse spath lpath D fs cams).2.1)
    ∧ List.Sorted fileLe (sortedFilesFor spath fs c)
    ∧ (sortedFilesFor spath fs c).Pairwise
        (fun a b => stampOf (spath ++ c) a ≤ stampOf (spath ++ c) b) := by
  have hsorted : List.Sorted fileLe (sortedFilesFor spath fs c) :=
    List.sorted_insertionSort fileLe _
  have hmemc : ∀ g ∈ sortedFilesFor spath fs c, canonicalStill (spath ++ c) g = true := by
    intro g hg
    have hgf : g ∈ fs.filter (fun f => globMatch (spath ++ c) f) := by
      simpa [sortedFilesFor, List.mem_insertionSort] using hg
    rcases List.mem_filter.mp hgf with ⟨hgfs, hgg⟩
    exact hcanon g hgfs hgg
  refine ⟨?_, hsorted, ?_⟩
  · rw [make_lapse_calls spath lpath D hD cams fs]
    apply List.mem_filterMap.mpr
    refine ⟨c, hc, ?_⟩
    have hn : (sortedFilesFor spath fs c).length > 0 := by
      cases h : sortedFilesFor spath fs c with
      | nil => exact absurd h hne
      | cons x xs => simp [h]
    simp [lapseCallFor, hn]
  · exact List.Pairwise.imp_of_mem
      (fun {a b} hma hmb hr =>
        stampOf_mono (spath ++ c) a b (hmemc a hma) (hmemc b hmb) hr) hsorted

/-- Witness for C2: the specification's scenario — three stills, lapse
duration 20, frame rate exactly `3 / 20`, frames in timestamp order. -/
theorem make_lapse_framerate_sorted_witness :
    (EncodeCall.mk "Front_Door"
        (sortedFilesFor "./raw/"
          ["./raw/Front_Door_20240101000500.jpg",
           "./raw/Front_Door_20240101000000.jpg",
           "./raw/Front_Door_20240101001000.jpg"] "Front_Door")
        (((sortedFilesFor "./raw/"
            ["./raw/Front_Door_20240101000500.jpg",
             "./raw/Front_Door_20240101000000.jpg",
             "./raw/Front_Door_20240101001000.jpg"] "Front_Door").length : ℚ) / ((20 : Int) : ℚ))
      ∈ (make_lapse "./raw/" "./lapse/" 20
          ["./raw/Front_Door_20240101000500.jpg",
           "./raw/Front_Door_20240101000000.jpg",
           "./raw/Front_Door_20240101001000.jpg"] ["Front_Door"]).2.1)
    ∧ List.Sorted fileLe
        (sortedFilesFor "./raw/"
          ["./raw/Front_Door_20240101000500.jpg",
           "./raw/Front_Door_20240101000000.jpg",
           "./raw/Front_Door_20240101001000.jpg"] "Front_Door")
    ∧ (sortedFilesFor "./raw/"
        ["./raw/Front_Door_20240101000500.jpg",
         "./raw/Front_Door_20240101000000.jpg",
         "./raw/Front_Door_20240101001000.jpg"] "Front_Door").Pairwise
        (fun a b => stampOf ("./raw/" ++ "Front_Door") a
          ≤ stampOf ("./raw/" ++ "Front_Door") b) :=
  make_lapse_framerate_sorted "./raw/" "./lapse/" 20
    ["./raw/Front_Door_20240101000500.jpg",
     "./raw/Front_Door_20240101000000.jpg",
     "./raw/Front_Door_20240101001000.jpg"] ["Front_Door"] "Front_Door"
    (by decide) (by decide) (by decide) (by decide)

/-- The configuration fields of `ArloLapse` set by `__init__`. -/
structure Config where
  username : String
  password : String
  camera_names : List String
  lapse_path : String
  snapshot_path : String
  purge_duration_hours : Int
  lapse_duration : Int
deriving DecidableEq, Repr

/-- The flat key/value document `config.yaml`; a field is `none` when the
key is absent. -/
structure CfgDoc where
  username : Option String
  password : Option String
  camera_names : Option (List String)
  lapse_path : Option String
  snapshot_path : Option String
  purge_duration_hours : Option Int
  lapse_duration : Option Int

/-- `ArloLapse.__init__` after the yaml load: the two mandatory secret
fields (raising `ValueError` when absent), then defaults for the rest. -/
def ArloLapse.init (doc : CfgDoc) : Except String Config :=
  match doc.username with
  | none => .error "Cannot find username in config.yaml"
  | some u =>
    match doc.password with
    | none => .error "Cannot find password in config.yaml"
    | some p =>
      .ok { username := u
            password := p
            camera_names := doc.camera_names.getD []
            lapse_path := doc.lapse_path.getD "./lapse/"
            snapshot_path := doc.snapshot_path.getD "./raw/"
            purge_duration_hours := doc.purge_duration_hours.getD 24
            lapse_duration := doc.lapse_duration.getD 20 }

/-- Outcome of the snapshot request/download for one camera: a URL is
returned and the download succeeds; the 60-second timeout fires
(`timeout_decorator.TimeoutError`); `TriggerFullFrameSnapshot` returns
`None`; or some other exception is raised. -/
inductive AcqEvent
  | ok
  | timeout
  | nullUrl
  | err
deriving DecidableEq, Repr

/-- The external Arlo service as seen by one run: whether login and
`GetDevices` succeed, the discovered camera device names, and the
per-camera outcome of the snapshot request. -/
structure Service where
  loginOk : Bool
  deviceNames : List String
  outcome : String → AcqEvent

/-- `camera['deviceName'].replace(' ', '_')`. -/
def underscoreName (s : String) : String :=
  String.mk (s.data.map (fun c => if c.toNat = 32 then '_' else c))

/-- The effective camera list computed inside `get_snapshots`: all
discovered names when none are configured, otherwise
`list(set(configured) & set(discovered))`. -/
def effectiveCameras (configured discovered : List String) : List String :=
  if configured.isEmpty then discovered
  else (configured ∩ discovered).dedup

/-- `self.snapshot_path + camera_name + '_' + now_str + '.jpg'`. -/
def mkSnapName (spath nowStr c : String) : String :=
  spath ++ c ++ "_" ++ nowStr ++ ".jpg"

/-- The `for camera in cameras:` download loop of `get_snapshots` over the
selected cameras: the files written before the loop ended, and whether it
finished (timeouts and null URLs are logged and skipped; any other
exception ends the loop at that camera). -/
def acquireLoop (spath nowStr : String) (oc : String → AcqEvent) :
    List String → List String × Bool
  | [] => ([], true)
  | c :: cs =>
    match oc c with
    | .ok =>
      let r := acquireLoop spath nowStr oc cs
      (mkSnapName spath nowStr c :: r.1, r.2)
    | .timeout => acquireLoop spath nowStr oc cs
    | .nullUrl => acquireLoop spath nowStr oc cs
    | .err => ([], false)

/-- `ArloLapse.get_snapshots`: on login/enumeration success, overwrite
`self.camera_names` with the effective list and download one still per
selected camera. Every exception is caught at the phase's top-level `try`,
so the method always returns; its results are the updated configuration and
the files written. -/
def get_snapshots (cfg : Config) (sv : Service) (nowStr : String) :
    Config × List String :=
  if sv.loginOk then
    let discovered := sv.deviceNames.map underscoreName
    let effective := effectiveCameras cfg.camera_names discovered
    let cfgp := { cfg with camera_names := effective }
    let r := acquireLoop cfg.snapshot_path nowStr sv.outcome
      (discovered.filter (fun n => effective.contains n))
    (cfgp, r.1)
  else (cfg, [])

/-- Observable result of a run that got past construction. -/
structure RunResult where
  cfg : Config
  files : List String
  calls : List EncodeCall
  purgeOk : Bool
  lapseOk : Bool
deriving DecidableEq, Repr

/-- The `__main__` block: construct, then `get_snapshots`,
`purge_snapshots`, `make_lapse`. A missing credential raises out of the
constructor; an unhandled purge exception kills the process before
`make_lapse` runs. -/
def run (doc : CfgDoc) (sv : Service) (now : Int) (nowStr : String)
    (w : List String) : Except String RunResult :=
  match ArloLapse.init doc with
  | .error e => .error e
  | .ok cfg =>
    let acq := get_snapshots cfg sv nowStr
    let w1 := acq.2.foldl insertFile w
    let pr := purge_snapshots acq.1.snapshot_path now acq.1.purge_duration_hours
      acq.1.camera_names w1
    if pr.2 then
      let ml := make_lapse acq.1.snapshot_path acq.1.lapse_path
        acq.1.lapse_duration pr.1 acq.1.camera_names
      .ok ⟨acq.1, ml.1, ml.2.1, true, ml.2.2⟩
    else
      .ok ⟨acq.1, pr.1, [], false, true⟩

/-- C4: a configuration document missing `username` or `password` makes
construction raise `ValueError`, so the whole run errors out before any
acquisition, purge or assembly. -/
theorem init_missing_credential_fails
    (doc : CfgDoc) (sv : Service) (now : Int) (nowStr : String) (w : List String)
    (h : doc.username = none ∨ doc.password = none) :
    ∃ e, ArloLapse.init doc = .error e ∧ run doc sv now nowStr w = .error e := by
  cases hu : doc.username with
  | none =>
    refine ⟨"Cannot find username in config.yaml", ?_, ?_⟩ <;>
      simp [ArloLapse.init, run, hu]
  | some u =>
    have hp : doc.password = none := by
      rcases h with h | h
      · rw [hu] at h
        exact Option.noConfusion h
      · exact h
    refine ⟨"Cannot find password in config.yaml", ?_, ?_⟩ <;>
      simp [ArloLapse.init, run, hu, hp]

/-- Witness for C4: a document with a password but no username. -/
theorem init_missing_credential_fails_witness :
    ∃ e, ArloLapse.init ⟨none, some "pw", none, none, none, none, none⟩
          = .error e
      ∧ run ⟨none, some "pw", none, none, none, none, none⟩
          ⟨true, ["Front Door"], fun _ => AcqEvent.ok⟩ 0 "20240101000000" []
          = .error e :=
  init_missing_credential_fails ⟨none, some "pw", none, none, none, none, none⟩
    ⟨true, ["Front Door"], fun _ => AcqEvent.ok⟩ 0 "20240101000000" [] (Or.inl rfl)

/-- C3: when enumeration succeeds, the camera list used for the rest of the
run is the full discovered set if none were configured, and exactly (as a
set) the intersection of the configured and discovered names otherwise. -/
theorem get_snapshots_effective_cameras (cfg : Config) (sv : Service) (nowStr : String)
    (hl : sv.loginOk = true) :
    (cfg.camera_names = [] →
        ((get_snapshots cfg sv nowStr).1).camera_names
          = sv.deviceNames.map underscoreName)
    ∧ (cfg.camera_names ≠ [] → ∀ x,
        x ∈ ((get_snapshots cfg sv nowStr).1).camera_names
          ↔ x ∈ cfg.camera_names ∧ x ∈ sv.deviceNames.map underscoreName) := by
  constructor
  · intro hcn
    simp [get_snapshots, hl, effectiveCameras, hcn]
  · intro hcn x
    have hne : ¬ cfg.camera_names.isEmpty = true := by
      simpa [List.isEmpty_iff] using hcn
    simp [get_snapshots, hl, effectiveCameras, hne, List.mem_dedup,
      List.mem_inter_iff, List.mem_map]

/-- Witness for C3: configured `Front_Door` is discovered, `Gone` is not. -/
theorem get_snapshots_effective_cameras_witness :
    "Front_Door" ∈ ((get_snapshots
        (Config.mk "u" "p" ["Front_Door", "Gone"] "./lapse/" "./raw/" 24 20)
        ⟨true, ["Front Door", "Back Yard"], fun _ => AcqEvent.ok⟩
        "20240101000000").1).camera_names
      ↔ "Front_Door" ∈ ["Front_Door", "Gone"]
        ∧ "Front_Door" ∈ (["Front Door", "Back Yard"].map underscoreName) :=
  (get_snapshots_effective_cameras
    (Config.mk "u" "p" ["Front_Door", "Gone"] "./lapse/" "./raw/" 24 20)
    ⟨true, ["Front Door", "Back Yard"], fun _ => AcqEvent.ok⟩
    "20240101000000" rfl).2 (by decide) "Front_Door"

/-- The files `get_snapshots` downloads for the cameras whose snapshot
request and download succeed. -/
def okSnapFiles (spath nowStr : String) (oc : String → AcqEvent)
    (cams : List String) : List String :=
  (cams.filter (fun c => oc c == AcqEvent.ok)).map (mkSnapName spath nowStr)

theorem acquireLoop_no_err (spath nowStr : String) (oc : String → AcqEvent) :
    ∀ cams : List String, (∀ c ∈ cams, oc c ≠ AcqEvent.err) →
      acquireLoop spath nowStr oc cams = (okSnapFiles spath nowStr oc cams, true) := by
  intro cams
  induction cams with
  | nil => intro _; rfl
  | cons c cs ih =>
    intro hne
    have hc := hne c (List.mem_cons_self c cs)
    have ihcs := ih (fun x hx => hne x (List.mem_cons_of_mem c hx))
    cases hoc : oc c with
    | ok => simp [acquireLoop, hoc, ihcs, okSnapFiles, List.filter_cons]
    | timeout => simp [acquireLoop, hoc, ihcs, okSnapFiles, List.filter_cons]
    | nullUrl => simp [acquireLoop, hoc, ihcs, okSnapFiles, List.filter_cons]
    | err => exact absurd hoc hc

theorem acquireLoop_err (spath nowStr : String) (oc : String → AcqEvent) (c : String)
    (hoc : oc c = AcqEvent.err) :
    ∀ pre post : List String, (∀ x ∈ pre, oc x ≠ AcqEvent.err) →
      acquireLoop spath nowStr oc (pre ++ c :: post)
        = (okSnapFiles spath nowStr oc pre, false) := by
  intro pre
  induction pre with
  | nil =>
    intro post _
    simp [acquireLoop, hoc, okSnapFiles]
  | cons a pre ih =>
    intro post hpre
    have ha := hpre a (List.mem_cons_self a pre)
    have hpre2 := fun x hx => hpre x (List.mem_cons_of_mem a hx)
    cases hoa : oc a with
    | ok => simp [acquireLoop, hoa, ih post hpre2, okSnapFiles, List.filter_cons]
    | timeout => simp [acquireLoop, hoa, ih post hpre2, okSnapFiles, List.filter_cons]
    | nullUrl => simp [acquireLoop, hoa, ih post hpre2, okSnapFiles, List.filter_cons]
    | err => exact absurd hoa ha

/-- C5: in the download loop a timeout or null URL only skips that camera —
all remaining cameras are still processed; any other exception ends the
whole acquisition phase at that camera, keeping the files already written;
and since `get_snapshots` catches every exception at its top, a run past
construction always continues into purge and assembly. -/
theorem acquisition_failure_policy
    (spath nowStr : String) (oc : String → AcqEvent) (cams : List String) :
    ((∀ c ∈ cams, oc c ≠ AcqEvent.err) →
        acquireLoop spath nowStr oc cams = (okSnapFiles spath nowStr oc cams, true))
    ∧ (∀ pre c post, cams = pre ++ c :: post → oc c = AcqEvent.err →
        (∀ x ∈ pre, oc x ≠ AcqEvent.err) →
        acquireLoop spath nowStr oc cams = (okSnapFiles spath nowStr oc pre, false))
    ∧ (∀ (doc : CfgDoc) (cfg : Config) (sv : Service) (now : Int) (w : List String),
        ArloLapse.init doc = .ok cfg → ∃ r, run doc sv now nowStr w = .ok r) := by
  refine ⟨acquireLoop_no_err spath nowStr oc cams, ?_, ?_⟩
  · intro pre c post hcams hoc hpre
    rw [hcams]
    exact acquireLoop_err spath nowStr oc c hoc pre post hpre
  · intro doc cfg sv now w hinit
    unfold run
    rw [hinit]
    dsimp only
    by_cases hpr : (purge_snapshots ((get_snapshots cfg sv nowStr).1).snapshot_path now
        ((get_snapshots cfg sv nowStr).1).purge_duration_hours
        ((get_snapshots cfg sv nowStr).1).camera_names
        (((get_snapshots cfg sv nowStr).2).foldl insertFile w)).2 = true
    · rw [if_pos hpr]
      exact ⟨_, rfl⟩
    · rw [if_neg hpr]
      exact ⟨_, rfl⟩

/-- Witness for C5: `Front_Door` times out but `Back_Yard` is still
fetched; with an aborting outcome on `Front_Door` nothing later is fetched;
and a constructed run returns normally. -/
theorem acquisition_failure_policy_witness :
    (acquireLoop "./raw/" "20240101000000"
        (fun c => if c == "Front_Door" then AcqEvent.timeout else AcqEvent.ok)
        ["Front_Door", "Back_Yard"]
      = (okSnapFiles "./raw/" "20240101000000"
          (fun c => if c == "Front_Door" then AcqEvent.timeout else AcqEvent.ok)
          ["Front_Door", "Back_Yard"], true))
    ∧ (acquireLoop "./raw/" "20240101000000"
        (fun c => if c == "Front_Door" then AcqEvent.err else AcqEvent.ok)
        ["Front_Door", "Back_Yard"]
      = (okSnapFiles "./raw/" "20240101000000"
          (fun c => if c == "Front_Door" then AcqEvent.err else AcqEvent.ok)
          [], false))
    ∧ ∃ r, run ⟨some "u", some "p", none, none, none, none, none⟩
        ⟨true, ["Front Door"], fun _ => AcqEvent.ok⟩ 0 "20240101000000" []
        = .ok r :=
  ⟨(acquisition_failure_policy "./raw/" "20240101000000"
      (fun c => if c == "Front_Door" then AcqEvent.timeout else AcqEvent.ok)
      ["Front_Door", "Back_Yard"]).1 (by decide),
   (acquisition_failure_policy "./raw/" "20240101000000"
      (fun c => if c == "Front_Door" then AcqEvent.err else AcqEvent.ok)
      ["Front_Door", "Back_Yard"]).2.1 [] "Front_Door" ["Back_Yard"] rfl
      (by decide) (by decide),
   (acquisition_failure_policy "./raw/" "20240101000000"
      (fun _ => AcqEvent.ok) []).2.2
      ⟨some "u", some "p", none, none, none, none, none⟩
      (Config.mk "u" "p" [] "./lapse/" "./raw/" 24 20)
      ⟨true, ["Front Door"], fun _ => AcqEvent.ok⟩ 0 [] rfl⟩

/-- C9 counterexample: `get_snapshots` overwrites the configured
`camera_names` field with the effective camera list — here the configured
camera is not among the discovered ones, so the field becomes empty. -/
theorem config_mutation_counterexample :
    ((get_snapshots (Config.mk "u" "p" ["Front_Door"] "./lapse/" "./raw/" 24 20)
        ⟨true, ["Back Yard"], fun _ => AcqEvent.ok⟩ "20240101000000").1).camera_names
      ≠ (Config.mk "u" "p" ["Front_Door"] "./lapse/" "./raw/" 24 20).camera_names := by
  decide

/-- C9 (amended): every configuration field except `camera_names` is
immutable after construction; `camera_names` is overwritten during snapshot
acquisition with the effective camera list when device enumeration
succeeds, and is kept unchanged when the acquisition phase fails before
enumeration. Purge and assembly read but never write the configuration. -/
theorem config_fields_after_get_snapshots (cfg : Config) (sv : Service) (nowStr : String) :
    ((get_snapshots cfg sv nowStr).1).username = cfg.username
    ∧ ((get_snapshots cfg sv nowStr).1).password = cfg.password
    ∧ ((get_snapshots cfg sv nowStr).1).lapse_path = cfg.lapse_path
    ∧ ((get_snapshots cfg sv nowStr).1).snapshot_path = cfg.snapshot_path
    ∧ ((get_snapshots cfg sv nowStr).1).purge_duration_hours = cfg.purge_duration_hours
    ∧ ((get_snapshots cfg sv nowStr).1).lapse_duration = cfg.lapse_duration
    ∧ (sv.loginOk = true → ((get_snapshots cfg sv nowStr).1).camera_names
        = effectiveCameras cfg.camera_names (sv.deviceNames.map underscoreName))
    ∧ (sv.loginOk = false → ((get_snapshots cfg sv nowStr).1).camera_names
        = cfg.camera_names) := by
  cases hl : sv.loginOk <;> simp [get_snapshots, hl]

/-- Witness for C9's amended statement at concrete inputs. -/
theorem config_fields_after_get_snapshots_witness :
    ((get_snapshots (Config.mk "u" "p" ["Front_Door"] "./lapse/" "./raw/" 24 20)
        ⟨true, ["Back Yard"], fun _ => AcqEvent.ok⟩ "20240101000000").1).username = "u"
    ∧ ((get_snapshots (Config.mk "u" "p" ["Front_Door"] "./lapse/" "./raw/" 24 20)
        ⟨true, ["Back Yard"], fun _ => AcqEvent.ok⟩ "20240101000000").1).camera_names
      = effectiveCameras ["Front_Door"] (["Back Yard"].map underscoreName) :=
  ⟨(config_fields_after_get_snapshots
      (Config.mk "u" "p" ["Front_Door"] "./lapse/" "./raw/" 24 20)
      ⟨true, ["Back Yard"], fun _ => AcqEvent.ok⟩ "20240101000000").1,
   (config_fields_after_get_snapshots
      (Config.mk "u" "p" ["Front_Door"] "./lapse/" "./raw/" 24 20)
      ⟨true, ["Back Yard"], fun _ => AcqEvent.ok⟩ "20240101000000").2.2.2.2.2.2.1 rfl⟩
